import Mathlib

/-!
Verification of the CiefpTvTodayDE EPG plugin (`plugin.py`).

The development shallowly embeds the plugin's core pipeline — XML-record
parsing (`parseXMLData`), display-line building (`getEPGFromData`), the
current-programme cursor resolver (`updateEPGAndPicon`), the channel-name
normalizer (`clean_channel_name`) and the cached fetcher
(`downloadAndParseData`) — into Lean and proves the specified properties.

Modelling conventions:
  * Python strings are modelled as `List Char` (`PyStr`); the Unicode-aware
    classification functions (`str.isalnum`, `str.lower`, `str.strip`) are
    modelled on the ASCII range, which covers the character classes the
    program manipulates.
  * Time is modelled at whole-second granularity (`Int` epoch seconds); the
    host's local timezone is a fixed offset `tz` (seconds east of UTC), so
    `datetime.fromtimestamp t` is `secsToCivil (t + tz)` and
    `naive.timestamp()` is `civilToSecs c - tz`.
  * `datetime` calendar conversion is embedded with the standard civil
    calendar algorithms over `Int.fdiv` (floor division, matching Python).
  * The parser embeds the `ElementTree` branch (`LXML_AVAILABLE == False`)
    of `parseXMLData`; an XML element is a record of the attribute/child
    texts the code reads.
  * Python date strings `'%Y%m%d'` are modelled as the integer
    `y*10000 + m*100 + d`: for the four-digit years `datetime` produces,
    lexicographic order on the eight-character strings coincides with
    numeric order, and equality coincides as well.
-/

/-! ### Python strings as lists of characters -/

/-- Python strings, modelled as lists of characters. -/
abbrev PyStr := List Char

/-- Convert a Lean string literal to the `PyStr` model. -/
def pystr (s : String) : PyStr := s.data

/-- Python whitespace (the ASCII whitespace characters recognised by
`str.strip` and the regex class `\s`: space, tab, newline, carriage
return, vertical tab and form feed, given by their character codes). -/
def isPySpace (c : Char) : Bool :=
  c.toNat = 32 || c.toNat = 9 || c.toNat = 10 || c.toNat = 13
    || c.toNat = 11 || c.toNat = 12

/-- Model of Python `str.strip()`: drop whitespace from both ends. -/
def pyStrip (s : PyStr) : PyStr :=
  ((s.dropWhile isPySpace).reverse.dropWhile isPySpace).reverse

/-- Model of Python `str.isalnum()` on the ASCII range: decimal digits and
Latin letters. -/
def pyIsAlnum (c : Char) : Bool :=
  (48 ≤ c.toNat && c.toNat ≤ 57) ||
  (65 ≤ c.toNat && c.toNat ≤ 90) ||
  (97 ≤ c.toNat && c.toNat ≤ 122)

/-- Model of Python `str.lower()` on a single ASCII character. -/
def pyLower (c : Char) : Char :=
  if 65 ≤ c.toNat && c.toNat ≤ 90 then Char.ofNat (c.toNat + 32) else c

/-- Embedding of `clean_channel_name` (plugin.py line 57):
`''.join(e.lower() if e.isalnum() or e == '.' else '' for e in name).strip()`. -/
def clean_channel_name (name : PyStr) : PyStr :=
  pyStrip (name.filterMap fun e =>
    if pyIsAlnum e || e = '.' then some (pyLower e) else none)

/-- Model of Python `s.split(" - ")`: split on non-overlapping occurrences of
the three-character separator `" - "`, scanning left to right. -/
def splitSpDashSp : PyStr → List PyStr
  | [] => [[]]
  | ' ' :: '-' :: ' ' :: rest => [] :: splitSpDashSp rest
  | c :: rest =>
      match splitSpDashSp rest with
      | [] => [[c]]
      | x :: xs => (c :: x) :: xs

/-- Model of Python `s.split(" (")`: split on non-overlapping occurrences of
the two-character separator `" ("`. -/
def splitSpParen : PyStr → List PyStr
  | [] => [[]]
  | ' ' :: '(' :: rest => [] :: splitSpParen rest
  | c :: rest =>
      match splitSpParen rest with
      | [] => [[c]]
      | x :: xs => (c :: x) :: xs

/-- Model of Python `s.split(' ')[0]`: the segment before the first space. -/
def takeBeforeSpace (s : PyStr) : PyStr := s.takeWhile (· ≠ ' ')

/-- Model of the Python substring test `pat in s`. -/
def pyContains (pat : PyStr) : PyStr → Bool
  | [] => decide (pat = [])
  | c :: rest => pat.isPrefixOf (c :: rest) || pyContains pat rest

/-! ### Civil calendar arithmetic (`datetime` model) -/

/-- A naive `datetime.datetime` value: a civil calendar date plus a
time of day. -/
structure Civil where
  year : Int
  month : Nat
  day : Nat
  hour : Nat
  minute : Nat
  second : Nat
deriving DecidableEq, Repr

/-- Gregorian leap-year test. -/
def isLeap (y : Int) : Bool := y % 4 = 0 && (y % 100 ≠ 0 || y % 400 = 0)

/-- Length of a month in the proleptic Gregorian calendar. -/
def daysInMonth (y : Int) (m : Nat) : Nat :=
  if m = 2 then (if isLeap y then 29 else 28)
  else if m = 4 || m = 6 || m = 9 || m = 11 then 30
  else 31

/-- Days between a civil date and 1970-01-01 (days-from-civil algorithm,
floor division throughout). -/
def daysFromCivil (y : Int) (m d : Nat) : Int :=
  let y' : Int := if m ≤ 2 then y - 1 else y
  let era : Int := y'.fdiv 400
  let yoe : Int := y' - era * 400
  let mp : Int := if 2 < m then (m : Int) - 3 else (m : Int) + 9
  let doy : Int := (153 * mp + 2).fdiv 5 + (d : Int) - 1
  let doe : Int := yoe * 365 + yoe.fdiv 4 - yoe.fdiv 100 + doy
  era * 146097 + doe - 719468

/-- Civil date from a count of days since 1970-01-01 (civil-from-days
algorithm). -/
def civilFromDays (z0 : Int) : Int × Nat × Nat :=
  let z := z0 + 719468
  let era := z.fdiv 146097
  let doe := z - era * 146097
  let yoe := (doe - doe.fdiv 1460 + doe.fdiv 36524 - doe.fdiv 146096).fdiv 365
  let y := yoe + era * 400
  let doy := doe - (365 * yoe + yoe.fdiv 4 - yoe.fdiv 100)
  let mp := (5 * doy + 2).fdiv 153
  let d := doy - (153 * mp + 2).fdiv 5 + 1
  let m := if mp < 10 then mp + 3 else mp - 9
  ((if m ≤ 2 then y + 1 else y), m.toNat, d.toNat)

/-- Epoch seconds to a civil datetime. -/
def secsToCivil (t : Int) : Civil :=
  let days := t.fdiv 86400
  let sod := (t - days * 86400).toNat
  let ymd := civilFromDays days
  ⟨ymd.1, ymd.2.1, ymd.2.2, sod / 3600, (sod / 60) % 60, sod % 60⟩

/-- Civil datetime to epoch seconds. -/
def civilToSecs (c : Civil) : Int :=
  daysFromCivil c.year c.month c.day * 86400
    + (c.hour : Int) * 3600 + (c.minute : Int) * 60 + (c.second : Int)

/-- Model of `naive_datetime.timestamp()` under a fixed local offset `tz` (seconds
east of UTC). -/
def timestampOf (tz : Int) (c : Civil) : Int := civilToSecs c - tz

/-- Model of `datetime.fromtimestamp(t)` under a fixed local offset `tz`. -/
def fromtimestampCivil (tz : Int) (t : Int) : Civil := secsToCivil (t + tz)

/-- Model of `strftime('%Y%m%d')` on a civil datetime, as the integer
`y*10000 + m*100 + d` (see the date-string convention above). -/
def dateInt (c : Civil) : Int :=
  c.year * 10000 + (c.month : Int) * 100 + (c.day : Int)

/-! ### `strftime` / `strptime` models -/

/-- The decimal digit character for `n < 10`. -/
def digitChar (n : Nat) : Char := Char.ofNat (48 + n)

/-- Zero-padded two-digit decimal rendering (`%H`, `%M`, `%d`, `%m`). -/
def pad2 (n : Nat) : PyStr := [digitChar (n / 10 % 10), digitChar (n % 10)]

/-- Zero-padded four-digit decimal rendering (`%Y`). -/
def pad4 (n : Nat) : PyStr :=
  [digitChar (n / 1000 % 10), digitChar (n / 100 % 10),
   digitChar (n / 10 % 10), digitChar (n % 10)]

/-- Model of `strftime('%H:%M')` on a civil datetime. -/
def fmtHM (c : Civil) : PyStr := pad2 c.hour ++ pystr (":") ++ pad2 c.minute

/-- ASCII decimal digit test. -/
def pyIsDigit (c : Char) : Bool := 48 ≤ c.toNat && c.toNat ≤ 57

/-- Numeric value of a digit character. -/
def digitVal (c : Char) : Nat := c.toNat - 48

/-- Model of `datetime.strptime(s, '%Y%m%d%H%M%S')`: fourteen digits, all calendar
fields in the ranges accepted by `strptime` plus the `datetime` constructor;
returns `none` exactly when the call raises `ValueError`. -/
def strptime14 (s : PyStr) : Option Civil :=
  match s with
  | [y1, y2, y3, y4, mo1, mo2, d1, d2, h1, h2, mi1, mi2, se1, se2] =>
    if [y1, y2, y3, y4, mo1, mo2, d1, d2, h1, h2, mi1, mi2, se1, se2].all
        pyIsDigit then
      let y : Int :=
        (digitVal y1 * 1000 + digitVal y2 * 100 + digitVal y3 * 10
          + digitVal y4 : Nat)
      let mo := digitVal mo1 * 10 + digitVal mo2
      let d := digitVal d1 * 10 + digitVal d2
      let h := digitVal h1 * 10 + digitVal h2
      let mi := digitVal mi1 * 10 + digitVal mi2
      let se := digitVal se1 * 10 + digitVal se2
      if 1 ≤ y && 1 ≤ mo && mo ≤ 12 && 1 ≤ d && d ≤ daysInMonth y mo
          && h ≤ 23 && mi ≤ 59 && se ≤ 59 then
        some ⟨y, mo, d, h, mi, se⟩
      else none
    else none
  | _ => none

/-- The `'%H:%M'` tail of `strptime(..., '%d.%m.%Y %H:%M')`.  The format's
literal space matches a run of whitespace, the hour is one or two digits
with value at most 23, the minute is one or two digits with a two-digit
value at most 59, and the whole input must be consumed. -/
def parseHM (s : PyStr) : Option (Nat × Nat) :=
  match s.dropWhile isPySpace with
  | [h1, h2, ':', m1, m2] =>
    if pyIsDigit h1 && pyIsDigit h2 && pyIsDigit m1 && pyIsDigit m2
        && digitVal h1 * 10 + digitVal h2 ≤ 23
        && digitVal m1 * 10 + digitVal m2 ≤ 59 then
      some (digitVal h1 * 10 + digitVal h2, digitVal m1 * 10 + digitVal m2)
    else none
  | [h1, h2, ':', m1] =>
    if pyIsDigit h1 && pyIsDigit h2 && pyIsDigit m1
        && digitVal h1 * 10 + digitVal h2 ≤ 23 then
      some (digitVal h1 * 10 + digitVal h2, digitVal m1)
    else none
  | [h1, ':', m1, m2] =>
    if pyIsDigit h1 && pyIsDigit m1 && pyIsDigit m2
        && digitVal m1 * 10 + digitVal m2 ≤ 59 then
      some (digitVal h1, digitVal m1 * 10 + digitVal m2)
    else none
  | [h1, ':', m1] =>
    if pyIsDigit h1 && pyIsDigit m1 then some (digitVal h1, digitVal m1)
    else none
  | _ => none

/-! ### Data model and parser (`parseXMLData`, ElementTree branch) -/

/-- The fields of a `<channel>` element that `parseXMLData` reads: the `id`
attribute, the text of the first `display-name` child, and the `src`
attribute of the first `icon` child.  A `none` models an absent
attribute/child. -/
structure ChannelElem where
  id : Option PyStr
  displayName : Option PyStr
  icon : Option PyStr
deriving DecidableEq, Repr

/-- The fields of a `<programme>` element that `parseXMLData` reads. -/
structure ProgrammeElem where
  channel : Option PyStr
  start : Option PyStr
  stop : Option PyStr
  title : Option PyStr
  desc : Option PyStr
  category : Option PyStr
  icon : Option PyStr
deriving DecidableEq, Repr

/-- A parsed channel record (an element of `self.channelData`).  The Python
dict key `alias` is a Lean keyword, hence the field name `alias'`. -/
structure Channel where
  id : PyStr
  title : PyStr
  alias' : PyStr
  logo : PyStr
  icon : Option PyStr
deriving DecidableEq, Repr

/-- A parsed programme record (an element of `self.epgData[channel]`). -/
structure Program where
  title : PyStr
  desc : PyStr
  category : PyStr
  icon : Option PyStr
  start_timestamp : Int
  stop_timestamp : Option Int
  start_date : Int
deriving DecidableEq, Repr

/-- The channel loop body (plugin.py lines 164-180): skip the element when
the `id` attribute is falsy or the `display-name` child is missing,
otherwise build the channel record. -/
def parseChannelElem (ce : ChannelElem) : Option Channel :=
  match ce.id, ce.displayName with
  | some cid, some dn =>
    if cid = [] then none
    else
      let channel_name := pyStrip dn
      some ⟨cid, channel_name, clean_channel_name channel_name,
            clean_channel_name channel_name ++ pystr (".png"), ce.icon⟩
  | _, _ => none

/-- The dict `self.epgData`, a Python dict from channel title to programme list,
modelled as an insertion-ordered association list with unique keys. -/
abbrev EpgData := List (PyStr × List Program)

/-- Python dict assignment `d[k] = v`: replace the value at an existing key
in place, else append the new key at the end. -/
def setKey (d : EpgData) (k : PyStr) (v : List Program) : EpgData :=
  match d with
  | [] => [(k, v)]
  | (k', v') :: rest =>
      if k' = k then (k, v) :: rest else (k', v') :: setKey rest k v

/-- Model of `d[k].append(p)`: append `p` to the list stored at the first entry with
key `k`.  (Python would raise `KeyError` on a missing key; in
`parseXMLData` the key always exists, and on a missing key this model
returns `d` unchanged.) -/
def appendAt : EpgData → PyStr → Program → EpgData
  | [], _, _ => []
  | (k', v) :: rest, k, p =>
      if k' = k then (k', v ++ [p]) :: rest
      else (k', v) :: appendAt rest k p

/-- Dict lookup `d.get(k)`. -/
def lookupEpg : EpgData → PyStr → Option (List Program)
  | [], _ => none
  | (k', v) :: rest, k => if k' = k then some v else lookupEpg rest k

/-- The key sequence of the dict. -/
def keysOf (d : EpgData) : List PyStr := d.map Prod.fst

/-- The list `self.channelData` after the channel loop. -/
def parseChannels (elems : List ChannelElem) : List Channel :=
  elems.filterMap parseChannelElem

/-- The dict `self.epgData` after the channel loop: each valid channel executes
`self.epgData[channel_name] = []`, resetting the entry for its title. -/
def initEpg (elems : List ChannelElem) : EpgData :=
  (parseChannels elems).foldl (fun e ch => setKey e ch.title []) []

/-- Model of `next((ch for ch in self.channelData if ch['id'] == channel_id), None)`. -/
def findChannel (chans : List Channel) (cid : PyStr) : Option Channel :=
  chans.find? (fun ch => ch.id = cid)

/-- The `program_data` record together with its timestamp fields
(plugin.py lines 206-224): `none` exactly when the `try` block raises
`ValueError` (start or stop time fails `strptime`) and the programme is
dropped by the `except` handler. -/
def mkProgram (tz : Int) (pe : ProgrammeElem) : Option Program :=
  match pe.start, pe.title with
  | some st, some t =>
    match strptime14 (takeBeforeSpace st) with
    | none => none
    | some c =>
      let stopRes : Option (Option Int) :=
        match pe.stop with
        | some sp =>
            if sp = [] then some none
            else
              match strptime14 (takeBeforeSpace sp) with
              | some c2 => some (some (timestampOf tz c2))
              | none => none
        | none => some none
      match stopRes with
      | none => none
      | some stopTs =>
        some { title := pyStrip t
               desc := (match pe.desc with
                        | some dsc => pyStrip dsc
                        | none => pystr ("Nema opisa"))
               category := (match pe.category with
                            | some cat => pyStrip cat
                            | none => [])
               icon := pe.icon
               start_timestamp := timestampOf tz c
               stop_timestamp := stopTs
               start_date := dateInt c }
  | _, _ => none

/-- The programme loop body (plugin.py lines 189-228): skip the element when
the channel reference, start time or title is missing/falsy, resolve the
channel reference against `self.channelData`, build the programme record
and append it under the resolved channel's title; a `ValueError` from time
parsing drops the element. -/
def processProgramme (tz : Int) (chans : List Channel) (epg : EpgData)
    (pe : ProgrammeElem) : EpgData :=
  match pe.channel, pe.start, pe.title with
  | some cid, some st, some _t =>
    if cid = [] || st = [] then epg
    else
      match findChannel chans cid with
      | none => epg
      | some ch =>
        match mkProgram tz pe with
        | none => epg
        | some pd => appendAt epg ch.title pd
  | _, _, _ => epg

/-- Embedding of `parseXMLData`: the channel loop followed by the programme loop,
returning `(self.channelData, self.epgData)`. -/
def parseXMLData (tz : Int) (chanElems : List ChannelElem)
    (progElems : List ProgrammeElem) : List Channel × EpgData :=
  let chans := parseChannels chanElems
  (chans, progElems.foldl (processProgramme tz chans) (initEpg chanElems))

/-! ### Indexer (`getEPGFromData`) -/

/-- The entry text of a programme before the optional description suffix:
`f"{time_str} - {title} ({category})"` with
`time_str = fromtimestamp(start_timestamp).strftime('%H:%M')`. -/
def entryBase (tz : Int) (p : Program) : PyStr :=
  fmtHM (fromtimestampCivil tz p.start_timestamp) ++ pystr (" - ") ++ p.title
    ++ pystr (" (") ++ p.category ++ pystr (")")

/-- A programme's display entry (plugin.py lines 247-250): the base entry,
with `"\n  " + desc` appended when `desc` is truthy (non-empty). -/
def renderEntry (tz : Int) (p : Program) : PyStr :=
  if p.desc = [] then entryBase tz p
  else entryBase tz p ++ pystr ("\n  ") ++ p.desc

/-- One step of building the `epg_by_date` dict: append the programme under
its `start_date` key (new keys are appended at the end, dict order). -/
def addByDate (buckets : List (Int × List Program)) (p : Program) :
    List (Int × List Program) :=
  match buckets with
  | [] => [(p.start_date, [p])]
  | (k, ps) :: rest =>
      if k = p.start_date then (k, ps ++ [p]) :: rest
      else (k, ps) :: addByDate rest p

/-- Model of `sorted(epglist, key=lambda x: x['start_timestamp'])`. -/
def sortByStart (progs : List Program) : List Program :=
  List.insertionSort (fun a b => a.start_timestamp ≤ b.start_timestamp) progs

/-- The `epg_by_date` dict of `getEPGFromData`, grouping the
timestamp-sorted programme list by `start_date`.  (The code stores each
programme's rendered entry string; the model stores the programme and
renders at emission, one entry per programme in the same order.) -/
def bucketsOf (progs : List Program) : List (Int × List Program) :=
  (sortByStart progs).foldl addByDate []

/-- Lookup in the `epg_by_date` dict. -/
def lookupBucket : List (Int × List Program) → Int → Option (List Program)
  | [], _ => none
  | (k', v) :: rest, k => if k' = k then some v else lookupBucket rest k

/-- The date-separator line
`f"--- {strptime(date_str, '%Y%m%d').strftime('%d.%m.%Y')} ---"`, with the
eight-digit date key split back into its day, month and year fields. -/
def sepLine (k : Int) : PyStr :=
  pystr ("--- ") ++ pad2 (k % 100).toNat ++ pystr (".")
    ++ pad2 ((k / 100) % 100).toNat ++ pystr (".") ++ pad4 (k / 10000).toNat
    ++ pystr (" ---")

/-- The emission loop of `getEPGFromData` (lines 258-262): for each date key
in ascending order, the separator line followed by that bucket's entries. -/
def emitBlocks (tz : Int) (buckets : List (Int × List Program)) : List PyStr :=
  ((buckets.map Prod.fst).insertionSort (· ≤ ·)).flatMap fun k =>
    sepLine k :: ((lookupBucket buckets k).getD []).map (renderEntry tz)

/-- Embedding of `getEPGFromData(channel_name)`: the per-channel display lines. -/
def getEPGFromData (tz : Int) (epg : EpgData) (name : PyStr) : List PyStr :=
  let epglist := (lookupEpg epg name).getD []
  if epglist = [] then [pystr ("No EPG data for channel: ") ++ name]
  else
    let result := emitBlocks tz (bucketsOf epglist)
    if result = [] then [pystr ("No valid EPG data for channel: ") ++ name]
    else result

/-! ### Current-programme resolver (`updateEPGAndPicon`, lines 320-396) -/

/-- The skip test applied to a display line by every scan of the resolver:
date separators, the two informational lines, and lines without the
`" - "` separator are passed over. -/
def lineSkip (line : PyStr) : Bool :=
  (pystr ("---")).isPrefixOf line
    || pyContains (pystr ("No EPG data")) line
    || pyContains (pystr ("No valid EPG data")) line
    || !(pyContains (pystr (" - ")) line)

/-- Model of `line.split(" - ")[0]`, the formatted time of an entry line. -/
def lineTimeStr (line : PyStr) : PyStr := (splitSpDashSp line).getD 0 []

/-- Model of `line.split(" - ")[1].split(" (")[0]`, the title of an entry line. -/
def lineTitle (line : PyStr) : PyStr :=
  (splitSpParen ((splitSpDashSp line).getD 1 [])).getD 0 []

/-- The timestamp reconstructed from a line's formatted time:
`strptime(f"{fromtimestamp(start).strftime('%d.%m.%Y')} {time_str}",
"%d.%m.%Y %H:%M").timestamp()`.  The date half is the canonically formatted
start date of the target programme, so only the `'%H:%M'` half depends on
the line; `none` models the `ValueError` branch. -/
def reconstructTs (tz : Int) (p : Program) (time_str : PyStr) : Option Int :=
  let c := fromtimestampCivil tz p.start_timestamp
  match parseHM time_str with
  | some hm => some (timestampOf tz ⟨c.year, c.month, c.day, hm.1, hm.2, 0⟩)
  | none => none

/-- The per-line acceptance test of the resolver's matching scans
(lines 342-360 and 367-384): a non-skipped line is accepted for programme
`p` when its title equals `p`'s title and the reconstructed timestamp is
within the one-minute tolerance of `p`'s start timestamp. -/
def matchLine (tz : Int) (p : Program) (line : PyStr) : Bool :=
  if lineSkip line then false
  else if lineTitle line = p.title then
    match reconstructTs tz p (lineTimeStr line) with
    | some lt => (lt - p.start_timestamp).natAbs < 60
    | none => false
  else false

/-- The condition of the active-match loop (line 333):
`stop_time and program_date == current_date and start_time <= now <= stop_time`,
with Python truthiness on `stop_time` (`None` and `0` are falsy). -/
def activeCond (now cd : Int) (p : Program) : Bool :=
  match p.stop_timestamp with
  | none => false
  | some s =>
      decide (s ≠ 0) && decide (p.start_date = cd)
        && decide (p.start_timestamp ≤ now) && decide (now ≤ s)

/-- One step of the active-match minimisation (lines 329-338): track the
qualifying programme with the smallest `abs(now - start_timestamp)`,
keeping the earlier one on ties. -/
def activeStep (now cd : Int) (acc : Option (Program × Nat)) (p : Program) :
    Option (Program × Nat) :=
  if activeCond now cd p then
    let d := (now - p.start_timestamp).natAbs
    match acc with
    | none => some (p, d)
    | some (q, dq) => if d < dq then some (p, d) else some (q, dq)
  else acc

/-- Computation of `current_program`: fold the active-match step over the
timestamp-sorted programme list. -/
def pickActive (now cd : Int) (progs : List Program) : Option Program :=
  ((sortByStart progs).foldl (activeStep now cd) none).map Prod.fst

/-- The value `current_date`, the local date of `now` as a `'%Y%m%d'` value. -/
def currentDate (tz now : Int) : Int := dateInt (secsToCivil (now + tz))

/-- The channel's programme list as the resolver reads it
(`self.epgData.get(channel_name, [])`). -/
def progsOf (epg : EpgData) (name : PyStr) : List Program :=
  (lookupEpg epg name).getD []

/-- The index produced by the active-match phase (lines 327-360): `none`
when no active programme exists or no display line passes its match. -/
def activeLineIdx (tz : Int) (epg : EpgData) (name : PyStr) (now : Int) :
    Option Nat :=
  match pickActive now (currentDate tz now) (progsOf epg name) with
  | some cp => (getEPGFromData tz epg name).findIdx? (matchLine tz cp)
  | none => none

/-- The list `future_programs` (line 364): programmes whose start date is
today-or-later, in stored order. -/
def futureOf (cd : Int) (progs : List Program) : List Program :=
  progs.filter (fun p => decide (cd ≤ p.start_date))

/-- Model of `min(future_programs, key=lambda x: x['start_timestamp'])`: the first
programme attaining the minimal start timestamp (`none` on an empty
list, where Python would raise). -/
def minByStart : List Program → Option Program
  | [] => none
  | p :: ps =>
      some (ps.foldl
        (fun q r => if r.start_timestamp < q.start_timestamp then r else q) p)

/-- The last non-skipped line's index (the reversed scan of lines
387-393); `none` when every line is skipped. -/
def lastValidIdx : List PyStr → Option Nat
  | [] => none
  | l :: ls =>
      match lastValidIdx ls with
      | some i => some (i + 1)
      | none => if lineSkip l then none else some 0

/-- The cursor offset computed by `updateEPGAndPicon` (lines 320-395):
the active-match index if found; otherwise the first-future-programme
match with default 0; otherwise the last valid line with default 0. -/
def resolveCursor (tz : Int) (epg : EpgData) (name : PyStr) (now : Int) :
    Nat :=
  let lines := getEPGFromData tz epg name
  match activeLineIdx tz epg name now with
  | some i => i
  | none =>
    match minByStart (futureOf (currentDate tz now) (progsOf epg name)) with
    | some ff => (lines.findIdx? (matchLine tz ff)).getD 0
    | none => (lastValidIdx lines).getD 0

/-! ### Fetcher (`downloadAndParseData`), success paths -/

/-- The world state the fetcher touches: the cache file (content and
modification time) and the text the remote feed currently decompresses
to. -/
structure FetchWorld where
  cache : Option (PyStr × Int)
  remote : PyStr
deriving DecidableEq, Repr

/-- The outcome of one `downloadAndParseData` call: the XML text passed to
`parseXMLData`, whether a network request was made, and the resulting
world. -/
structure FetchResult where
  xml : PyStr
  usedNetwork : Bool
  world : FetchWorld
deriving DecidableEq, Repr

/-- The constant `CACHE_TIME = 86400`. -/
def CACHE_TIME : Int := 86400

/-- Embedding of `downloadAndParseData` (lines 109-140) on its success paths: if the
cache file exists and its age is under `CACHE_TIME`, return its contents
with no network request; otherwise fetch the remote text, write it to the
cache (stamped with the current time) and return it. -/
def downloadAndParseData (now : Int) (w : FetchWorld) : FetchResult :=
  match w.cache with
  | some (txt, mtime) =>
      if now - mtime < CACHE_TIME then ⟨txt, false, w⟩
      else ⟨w.remote, true, ⟨some (w.remote, now), w.remote⟩⟩
  | none => ⟨w.remote, true, ⟨some (w.remote, now), w.remote⟩⟩

/-! ### Specification-side definitions and character classes -/

/-- Character class of the specified alias alphabet: lowercase ASCII
alphanumerics and the literal dot, by character code. -/
def isLowerAlnumDot (c : Char) : Bool :=
  (48 ≤ c.toNat && c.toNat ≤ 57) || (97 ≤ c.toNat && c.toNat ≤ 122)
    || c.toNat = 46

/-- The alias as the specification words it, for the refinement comparison:
the title with every character that is not alphanumeric or a dot removed,
and the remaining characters lowercased. -/
def specAlias (t : PyStr) : PyStr :=
  (t.filter fun c => pyIsAlnum c || c = '.').map pyLower

/-- The number of entries of the programme index stored under a given
channel-title key. -/
def countKey (d : EpgData) (k : PyStr) : Nat :=
  ((keysOf d).filter (fun a => a = k)).length

/-! ### Concrete example data used by witnesses and counterexamples -/

/-- A channel element with id `de1` and display name `Das Erste`. -/
def exChannelElem : ChannelElem :=
  ⟨some (pystr ("de1")), some (pystr ("Das Erste")), none⟩

/-- A valid programme element: 2024-01-01 20:00-21:00, title `News`. -/
def exProgrammeElem : ProgrammeElem :=
  ⟨some (pystr ("de1")), some (pystr ("20240101200000")),
   some (pystr ("20240101210000")), some (pystr ("News")), none, none, none⟩

/-- The programme record that `exProgrammeElem` parses to at `tz = 0`. -/
def exProgram : Program :=
  { title := pystr ("News"), desc := pystr ("Nema opisa"), category := []
    icon := none, start_timestamp := 1704139200
    stop_timestamp := some 1704142800, start_date := 20240101 }

/-- A programme element whose start time parses but whose stop time is
present and malformed. -/
def exBadStopElem : ProgrammeElem :=
  ⟨some (pystr ("de1")), some (pystr ("20240101200000")),
   some (pystr ("garbage")), some (pystr ("News")), none, none, none⟩

/-- A programme element with no start attribute. -/
def exNoStartElem : ProgrammeElem :=
  ⟨some (pystr ("de1")), none, none, some (pystr ("News")), none, none, none⟩

/-- A future-dated programme element whose title contains the entry-line
separator `" - "`. -/
def exDashTitleElem : ProgrammeElem :=
  ⟨some (pystr ("de1")), some (pystr ("20240102200000")),
   some (pystr ("20240102210000")), some (pystr ("A - B")), none,
   some (pystr ("x")), none⟩

/-- The programme record that `exDashTitleElem` parses to at `tz = 0`. -/
def exDashProgram : Program :=
  { title := pystr ("A - B"), desc := pystr ("Nema opisa")
    category := pystr ("x"), icon := none, start_timestamp := 1704225600
    stop_timestamp := some 1704229200, start_date := 20240102 }

/-- The programme index parsed from the dash-titled future programme. -/
def exDashEpg : EpgData := (parseXMLData 0 [exChannelElem] [exDashTitleElem]).2

/-- An epoch second inside the 2024-01-01 20:00 programme (20:30 UTC). -/
def exNowActive : Int := 1704141000

/-- An epoch second on 2024-01-01 at 12:00 UTC, before `exDashProgram`. -/
def exNowBefore : Int := 1704110400

/-- Two channel elements with distinct ids and the same display title. -/
def exSameTitleA : ChannelElem := ⟨some (pystr ("a")), some (pystr ("Same")), none⟩

/-- The second channel element of the duplicate-title pair. -/
def exSameTitleB : ChannelElem := ⟨some (pystr ("b")), some (pystr ("Same")), none⟩

/-- The channel record parsed from `exSameTitleA`. -/
def exSameChanA : Channel :=
  ⟨pystr ("a"), pystr ("Same"), pystr ("same"), pystr ("same.png"), none⟩

/-- The channel record parsed from `exSameTitleB`. -/
def exSameChanB : Channel :=
  ⟨pystr ("b"), pystr ("Same"), pystr ("same"), pystr ("same.png"), none⟩

/-- A channel element whose display name needs stripping and cleaning. -/
def exMessyChannelElem : ChannelElem :=
  ⟨some (pystr ("x1")), some (pystr (" Das Erste HD! ")), none⟩

/-- The channel record parsed from `exMessyChannelElem`. -/
def exMessyChannel : Channel :=
  ⟨pystr ("x1"), pystr ("Das Erste HD!"), pystr ("daserstehd"),
   pystr ("daserstehd.png"), none⟩

/-! ### Helper lemmas -/

/-- Round-trip of `Char.ofNat` on valid code points. -/
theorem toNat_charOfNat {n : Nat} (h : n < 55296) : (Char.ofNat n).toNat = n := by
  unfold Char.ofNat
  rw [dif_pos (Or.inl h)]
  rfl

/-- Characters with code at least 33 are not Python whitespace. -/
theorem isPySpace_eq_false_of_ge {c : Char} (h : 33 ≤ c.toNat) :
    isPySpace c = false := by
  simp only [isPySpace, Bool.or_eq_false_iff, decide_eq_false_iff_not]
  omega

/-- The characters kept by `clean_channel_name` lowercase into the alias
alphabet and are never whitespace. -/
theorem alnumDot_lower_props {c : Char} (h : (pyIsAlnum c || decide (c = '.')) = true) :
    isLowerAlnumDot (pyLower c) = true ∧ isPySpace (pyLower c) = false := by
  rcases Bool.or_eq_true_iff.mp h with h' | h'
  · simp only [pyIsAlnum, Bool.or_eq_true_iff, Bool.and_eq_true,
      decide_eq_true_eq] at h'
    by_cases hu : 65 ≤ c.toNat ∧ c.toNat ≤ 90
    · have hpl : pyLower c = Char.ofNat (c.toNat + 32) := by
        simp [pyLower, hu.1, hu.2]
      have hval : (Char.ofNat (c.toNat + 32)).toNat = c.toNat + 32 :=
        toNat_charOfNat (by omega)
      rw [hpl]
      refine ⟨?_, isPySpace_eq_false_of_ge (by omega)⟩
      simp only [isLowerAlnumDot, hval, Bool.or_eq_true_iff, Bool.and_eq_true,
        decide_eq_true_eq]
      omega
    · have hpl : pyLower c = c := by
        simp only [pyLower]
        rw [if_neg]
        simp only [Bool.and_eq_true, decide_eq_true_eq]
        exact hu
      rw [hpl]
      constructor
      · simp only [isLowerAlnumDot, Bool.or_eq_true_iff, Bool.and_eq_true,
          decide_eq_true_eq]
        rcases h' with (h1 | h2) | h3
        · exact Or.inl (Or.inl h1)
        · exact absurd h2 hu
        · exact Or.inl (Or.inr h3)
      · refine isPySpace_eq_false_of_ge ?_
        rcases h' with (h1 | h2) | h3
        · omega
        · exact absurd h2 hu
        · omega
  · have hc : c = '.' := of_decide_eq_true h'
    subst hc
    exact ⟨by decide, by decide⟩

/-- Filtering with an if-then-else `filterMap` is a filter followed by a
map. -/
theorem filterMap_ite_eq_map_filter {α β : Type} (p : α → Bool) (g : α → β)
    (l : List α) :
    (l.filterMap fun e => if p e then some (g e) else none)
      = (l.filter p).map g := by
  induction l with
  | nil => rfl
  | cons a l ih =>
      by_cases h : p a <;>
        simp [List.filterMap_cons, List.filter_cons, h, ih]

/-- Dropping while a failing predicate changes nothing. -/
theorem dropWhile_eq_self_of_false {p : Char → Bool} {l : PyStr}
    (h : ∀ c ∈ l, p c = false) : l.dropWhile p = l := by
  cases l with
  | nil => rfl
  | cons a t =>
      rw [List.dropWhile_cons, h a (List.mem_cons_self a t)]
      simp

/-- Stripping a string with no whitespace characters changes nothing. -/
theorem pyStrip_eq_self {l : PyStr} (h : ∀ c ∈ l, isPySpace c = false) :
    pyStrip l = l := by
  unfold pyStrip
  rw [dropWhile_eq_self_of_false h,
    dropWhile_eq_self_of_false (fun c hc => h c (List.mem_reverse.mp hc)),
    List.reverse_reverse]

/-- The cleaned channel name is the filtered, lowercased title. -/
theorem clean_channel_name_eq (t : PyStr) :
    clean_channel_name t = specAlias t := by
  unfold clean_channel_name specAlias
  rw [filterMap_ite_eq_map_filter]
  apply pyStrip_eq_self
  intro c hc
  rcases List.mem_map.mp hc with ⟨a, ha, rfl⟩
  exact (alnumDot_lower_props (List.mem_filter.mp ha).2).2

/-- Bound on a successful `findIdx?` with a running offset. -/
theorem findIdx?_some_lt {α : Type} (p : α → Bool) :
    ∀ (l : List α) (i j : Nat), List.findIdx? p l i = some j → j < i + l.length
  | [], i, j, h => by simp [List.findIdx?] at h
  | x :: xs, i, j, h => by
      rw [List.findIdx?_cons] at h
      by_cases hp : p x
      · simp only [hp, if_true, Option.some.injEq] at h
        subst h
        simp
      · simp only [hp, if_false, Bool.false_eq_true] at h
        have := findIdx?_some_lt p xs (i + 1) j h
        simp only [List.length_cons]
        omega

/-- Bound on a successful `lastValidIdx`. -/
theorem lastValidIdx_some_lt :
    ∀ (l : List PyStr) (i : Nat), lastValidIdx l = some i → i < l.length
  | [], i, h => by simp [lastValidIdx] at h
  | x :: xs, i, h => by
      rw [lastValidIdx] at h
      cases hr : lastValidIdx xs with
      | some k =>
          rw [hr] at h
          have := lastValidIdx_some_lt xs k hr
          simp only [Option.some.injEq] at h
          simp only [List.length_cons]
          omega
      | none =>
          rw [hr] at h
          by_cases hs : lineSkip x
          · simp [hs] at h
          · simp only [hs, Bool.false_eq_true, if_false, Option.some.injEq] at h
            simp [← h]

/-- The display-line list is never empty. -/
theorem getEPGFromData_ne_nil (tz : Int) (epg : EpgData) (name : PyStr) :
    getEPGFromData tz epg name ≠ [] := by
  simp only [getEPGFromData]
  by_cases h1 : (lookupEpg epg name).getD [] = []
  · simp [h1]
  · by_cases h2 : emitBlocks tz (bucketsOf ((lookupEpg epg name).getD [])) = []
    · simp [h1, h2]
    · simp [h1, h2]

/-- Effect of one `addByDate` step on a bucket. -/
theorem lookupBucket_addByDate (b : List (Int × List Program)) (p : Program)
    (k : Int) :
    (lookupBucket (addByDate b p) k).getD []
      = (lookupBucket b k).getD []
        ++ (if p.start_date = k then [p] else []) := by
  induction b with
  | nil =>
      by_cases h : p.start_date = k <;>
        simp [addByDate, lookupBucket, h]
  | cons hd tl ih =>
      obtain ⟨k', v⟩ := hd
      by_cases h1 : k' = p.start_date
      · subst h1
        by_cases h2 : p.start_date = k
        · subst h2
          simp [addByDate, lookupBucket]
        · simp [addByDate, lookupBucket, h2]
      · have h1' : ¬p.start_date = k' := fun hh => h1 hh.symm
        by_cases h2 : k' = k
        · subst h2
          simp [addByDate, lookupBucket, h1, h1']
        · simp [addByDate, lookupBucket, h1, h2, ih]

/-- A bucket of the grouping fold is the corresponding filter of the input,
appended after whatever the accumulator already stored. -/
theorem lookupBucket_foldl (l : List Program)
    (acc : List (Int × List Program)) (k : Int) :
    (lookupBucket (l.foldl addByDate acc) k).getD []
      = (lookupBucket acc k).getD []
        ++ l.filter (fun p => decide (p.start_date = k)) := by
  induction l generalizing acc with
  | nil => simp
  | cons p l ih =>
      rw [List.foldl_cons, ih, lookupBucket_addByDate, List.filter_cons]
      by_cases h : p.start_date = k <;> simp [h]

/-- A bucket of `bucketsOf` is the date filter of the sorted programme
list. -/
theorem lookupBucket_bucketsOf (progs : List Program) (k : Int) :
    (lookupBucket (bucketsOf progs) k).getD []
      = (sortByStart progs).filter (fun p => decide (p.start_date = k)) := by
  unfold bucketsOf
  rw [lookupBucket_foldl]
  simp [lookupBucket]

/-- The timestamp-sorted programme list is pairwise nondecreasing. -/
theorem sortByStart_pairwise (progs : List Program) :
    (sortByStart progs).Pairwise
      (fun a b => a.start_timestamp ≤ b.start_timestamp) := by
  haveI : IsTotal Program (fun a b => a.start_timestamp ≤ b.start_timestamp) :=
    ⟨fun a b => le_total a.start_timestamp b.start_timestamp⟩
  haveI : IsTrans Program (fun a b => a.start_timestamp ≤ b.start_timestamp) :=
    ⟨fun _ _ _ hab hbc => le_trans hab hbc⟩
  exact List.sorted_insertionSort _ progs

/-- Membership transfers between a programme list and its sorted copy. -/
theorem mem_sortByStart {p : Program} {progs : List Program} :
    p ∈ sortByStart progs ↔ p ∈ progs :=
  (List.perm_insertionSort _ progs).mem_iff

/-- The grouping fold of a non-empty list is non-empty. -/
theorem foldl_addByDate_ne_nil :
    ∀ (l : List Program) (acc : List (Int × List Program)),
      l ≠ [] ∨ acc ≠ [] → l.foldl addByDate acc ≠ []
  | [], acc, h => by
      rcases h with h | h
      · exact absurd rfl h
      · simpa using h
  | p :: l, acc, _ => by
      rw [List.foldl_cons]
      refine foldl_addByDate_ne_nil l (addByDate acc p) (Or.inr ?_)
      cases acc with
      | nil => simp [addByDate]
      | cons hd tl =>
          obtain ⟨k, v⟩ := hd
          by_cases h : k = p.start_date <;> simp [addByDate, h]

/-- Grouping a non-empty programme list yields at least one bucket. -/
theorem bucketsOf_ne_nil {progs : List Program} (h : progs ≠ []) :
    bucketsOf progs ≠ [] := by
  refine foldl_addByDate_ne_nil _ _ (Or.inl ?_)
  intro he
  have hp := List.perm_insertionSort
    (fun a b : Program => a.start_timestamp ≤ b.start_timestamp) progs
  rw [show List.insertionSort
      (fun a b : Program => a.start_timestamp ≤ b.start_timestamp) progs
      = sortByStart progs from rfl, he] at hp
  exact h hp.symm.eq_nil

/-- Emission over at least one bucket yields at least one line. -/
theorem emitBlocks_ne_nil (tz : Int) {buckets : List (Int × List Program)}
    (h : buckets ≠ []) : emitBlocks tz buckets ≠ [] := by
  unfold emitBlocks
  have hlen : ((buckets.map Prod.fst).insertionSort (· ≤ ·)).length
      = buckets.length :=
    (List.perm_insertionSort _ _).length_eq.trans (List.length_map _ _)
  cases hk : (buckets.map Prod.fst).insertionSort (· ≤ ·) with
  | nil =>
      rw [hk] at hlen
      exact absurd (List.length_eq_zero.mp hlen.symm) h
  | cons k ks => simp [hk]

/-- Keys after a dict assignment: unchanged when the key exists, appended
otherwise. -/
theorem keysOf_setKey (d : EpgData) (k : PyStr) (v : List Program) :
    keysOf (setKey d k v)
      = if k ∈ keysOf d then keysOf d else keysOf d ++ [k] := by
  induction d with
  | nil => simp [setKey, keysOf]
  | cons hd tl ih =>
      obtain ⟨k', v'⟩ := hd
      by_cases h : k' = k
      · subst h
        simp [setKey, keysOf]
      · have h' : ¬k = k' := fun hh => h hh.symm
        simp only [setKey, if_neg h, keysOf, List.map_cons] at ih ⊢
        rw [ih]
        by_cases hm : k ∈ List.map Prod.fst tl
        · simp [hm, h']
        · simp [hm, h']

/-- A dict assignment makes the key present. -/
theorem mem_keysOf_setKey (d : EpgData) (k : PyStr) (v : List Program) :
    k ∈ keysOf (setKey d k v) := by
  rw [keysOf_setKey]
  by_cases h : k ∈ keysOf d <;> simp [h]

/-- A dict assignment preserves the other keys. -/
theorem keysOf_subset_setKey (d : EpgData) (k : PyStr) (v : List Program) :
    keysOf d ⊆ keysOf (setKey d k v) := by
  rw [keysOf_setKey]
  by_cases h : k ∈ keysOf d <;> simp [h, List.subset_append_left]

/-- A dict assignment preserves key uniqueness. -/
theorem nodup_keysOf_setKey {d : EpgData} (k : PyStr) (v : List Program)
    (h : (keysOf d).Nodup) : (keysOf (setKey d k v)).Nodup := by
  rw [keysOf_setKey]
  by_cases hm : k ∈ keysOf d
  · simpa [hm] using h
  · simp only [hm, if_false]
    refine List.Nodup.append h (List.nodup_singleton k) ?_
    intro a ha hk
    rw [List.mem_singleton] at hk
    exact hm (hk ▸ ha)

/-- The channel-loop fold keeps keys unique, keeps existing keys, and
records every processed channel title. -/
theorem initEpg_fold_spec :
    ∀ (chans : List Channel) (acc : EpgData), (keysOf acc).Nodup →
      (keysOf (chans.foldl (fun e ch => setKey e ch.title []) acc)).Nodup
      ∧ keysOf acc ⊆
          keysOf (chans.foldl (fun e ch => setKey e ch.title []) acc)
      ∧ ∀ ch ∈ chans,
          ch.title ∈ keysOf (chans.foldl (fun e ch => setKey e ch.title []) acc)
  | [], acc, h => ⟨h, fun _ ha => ha, by simp⟩
  | ch :: chans, acc, h => by
      rw [List.foldl_cons]
      obtain ⟨ih1, ih2, ih3⟩ :=
        initEpg_fold_spec chans (setKey acc ch.title [])
          (nodup_keysOf_setKey _ _ h)
      refine ⟨ih1, fun a ha => ih2 (keysOf_subset_setKey _ _ _ ha), ?_⟩
      intro c hc
      rcases List.mem_cons.mp hc with rfl | hc'
      · exact ih2 (mem_keysOf_setKey _ _ _)
      · exact ih3 c hc'

/-- Appending a programme never changes the key sequence. -/
theorem keysOf_appendAt (d : EpgData) (k : PyStr) (p : Program) :
    keysOf (appendAt d k p) = keysOf d := by
  induction d with
  | nil => rfl
  | cons hd tl ih =>
      obtain ⟨k', v⟩ := hd
      by_cases h : k' = k <;> simp [appendAt, keysOf, h] <;>
        simpa [keysOf] using ih

/-- The programme-loop step never changes the key sequence. -/
theorem keysOf_processProgramme (tz : Int) (chans : List Channel)
    (epg : EpgData) (pe : ProgrammeElem) :
    keysOf (processProgramme tz chans epg pe) = keysOf epg := by
  unfold processProgramme
  rcases pe.channel with _ | cid
  · rfl
  · rcases pe.start with _ | st
    · rfl
    · rcases pe.title with _ | t
      · rfl
      · by_cases hg : cid = [] ∨ st = []
        · rcases hg with hg | hg <;> simp [hg]
        · push_neg at hg
          simp only [hg.1, hg.2, Bool.or_eq_false_iff, if_neg, decide_eq_true_eq]
          rw [if_neg (by simp [hg.1, hg.2])]
          rcases findChannel chans cid with _ | ch
          · rfl
          · rcases mkProgram tz pe with _ | pd
            · rfl
            · exact keysOf_appendAt epg ch.title pd

/-- The programme loop never changes the key sequence. -/
theorem keysOf_progFold (tz : Int) (chans : List Channel) :
    ∀ (pes : List ProgrammeElem) (epg : EpgData),
      keysOf (pes.foldl (processProgramme tz chans) epg) = keysOf epg
  | [], _ => rfl
  | pe :: pes, epg => by
      rw [List.foldl_cons, keysOf_progFold tz chans pes,
        keysOf_processProgramme]

/-- A `none` result of the active-match step means nothing was tracked and
the scanned programme did not qualify. -/
theorem activeStep_eq_none {now cd : Int} {acc : Option (Program × Nat)}
    {p : Program} (h : activeStep now cd acc p = none) :
    acc = none ∧ activeCond now cd p = false := by
  by_cases hp : activeCond now cd p = true
  · cases hca : acc with
    | none => simp [activeStep, hp, hca] at h
    | some qd =>
        obtain ⟨q0, d0⟩ := qd
        by_cases hlt : (now - p.start_timestamp).natAbs < d0 <;>
          simp [activeStep, hp, hca, hlt] at h
  · rw [activeStep, if_neg hp] at h
    exact ⟨h, Bool.eq_false_iff.mpr hp⟩

/-- The programme tracked by the active-match step comes from the scanned
programme or from the accumulator. -/
theorem activeStep_origin {now cd : Int} {acc : Option (Program × Nat)}
    {p q : Program} {dq : Nat}
    (h : activeStep now cd acc p = some (q, dq)) :
    q = p ∨ acc = some (q, dq) := by
  by_cases hp : activeCond now cd p = true
  · cases hca : acc with
    | none =>
        simp only [activeStep, hp, if_true, hca] at h
        simp only [Option.some.injEq, Prod.mk.injEq] at h
        exact Or.inl h.1.symm
    | some qd =>
        obtain ⟨q0, d0⟩ := qd
        by_cases hlt : (now - p.start_timestamp).natAbs < d0
        · simp only [activeStep, hp, if_true, hca, hlt, if_pos] at h
          simp only [Option.some.injEq, Prod.mk.injEq] at h
          exact Or.inl h.1.symm
        · simp only [activeStep, hp, if_true, hca, if_neg hlt] at h
          simp only [Option.some.injEq, Prod.mk.injEq] at h
          exact Or.inr (by rw [h.1, h.2])
  · rw [activeStep, if_neg hp] at h
    exact Or.inr h

/-- The active-match step preserves the tracked-pair invariant. -/
theorem activeStep_inv {now cd : Int} {acc : Option (Program × Nat)}
    {p q : Program} {dq : Nat}
    (hacc : ∀ q0 d0, acc = some (q0, d0) →
      activeCond now cd q0 = true ∧ d0 = (now - q0.start_timestamp).natAbs)
    (h : activeStep now cd acc p = some (q, dq)) :
    activeCond now cd q = true ∧ dq = (now - q.start_timestamp).natAbs := by
  by_cases hp : activeCond now cd p = true
  · cases hca : acc with
    | none =>
        simp only [activeStep, hp, if_true, hca] at h
        simp only [Option.some.injEq, Prod.mk.injEq] at h
        rw [← h.1, ← h.2]
        exact ⟨hp, rfl⟩
    | some qd =>
        obtain ⟨q0, d0⟩ := qd
        by_cases hlt : (now - p.start_timestamp).natAbs < d0
        · simp only [activeStep, hp, if_true, hca, hlt, if_pos] at h
          simp only [Option.some.injEq, Prod.mk.injEq] at h
          rw [← h.1, ← h.2]
          exact ⟨hp, rfl⟩
        · simp only [activeStep, hp, if_true, hca, if_neg hlt] at h
          simp only [Option.some.injEq, Prod.mk.injEq] at h
          rw [← h.1, ← h.2]
          exact hacc q0 d0 hca
  · rw [activeStep, if_neg hp] at h
    exact hacc q dq h

/-- The distance tracked by the active-match step never increases. -/
theorem activeStep_le {now cd : Int} {acc : Option (Program × Nat)}
    {p q q0 : Program} {dq d0 : Nat}
    (h : activeStep now cd acc p = some (q, dq)) (ha : acc = some (q0, d0)) :
    dq ≤ d0 := by
  subst ha
  by_cases hp : activeCond now cd p = true
  · by_cases hlt : (now - p.start_timestamp).natAbs < d0
    · simp only [activeStep, hp, if_true, hlt, if_pos] at h
      simp only [Option.some.injEq, Prod.mk.injEq] at h
      omega
    · simp only [activeStep, hp, if_true, if_neg hlt] at h
      simp only [Option.some.injEq, Prod.mk.injEq] at h
      omega
  · rw [activeStep, if_neg hp] at h
    simp only [Option.some.injEq, Prod.mk.injEq] at h
    omega

/-- When the scanned programme qualifies, the step result is a tracked pair
whose distance is at most the scanned programme's distance. -/
theorem activeStep_of_cond {now cd : Int} {acc : Option (Program × Nat)}
    {p : Program} (hp : activeCond now cd p = true) :
    ∃ q1 d1, activeStep now cd acc p = some (q1, d1)
      ∧ d1 ≤ (now - p.start_timestamp).natAbs := by
  cases hca : acc with
  | none =>
      exact ⟨p, _, by simp [activeStep, hp], le_refl _⟩
  | some qd =>
      obtain ⟨q0, d0⟩ := qd
      by_cases hlt : (now - p.start_timestamp).natAbs < d0
      · exact ⟨p, _, by simp [activeStep, hp, hlt], le_refl _⟩
      · exact ⟨q0, d0, by simp [activeStep, hp, hlt], by omega⟩

/-- A tracked accumulator keeps the step result tracked. -/
theorem activeStep_some_of_some {now cd : Int} {acc : Option (Program × Nat)}
    {p q0 : Program} {d0 : Nat} (ha : acc = some (q0, d0)) :
    ∃ q1 d1, activeStep now cd acc p = some (q1, d1) := by
  by_cases hp : activeCond now cd p = true
  · obtain ⟨q1, d1, h1, _⟩ := @activeStep_of_cond now cd acc p hp
    exact ⟨q1, d1, h1⟩
  · exact ⟨q0, d0, by rw [activeStep, if_neg hp, ha]⟩

/-- Invariant of the active-match fold (plugin.py lines 327-338): a tracked
result qualifies and carries its own distance, its distance is at most the
accumulator's, it is minimal over every qualifying scanned programme, it
originates in the list or the accumulator, and a `none` result means the
accumulator was empty and nothing scanned qualified. -/
theorem activeFold_spec (now cd : Int) :
    ∀ (l : List Program) (acc : Option (Program × Nat)),
      (∀ q0 d0, acc = some (q0, d0) →
        activeCond now cd q0 = true ∧ d0 = (now - q0.start_timestamp).natAbs) →
      ((∀ q dq, l.foldl (activeStep now cd) acc = some (q, dq) →
          activeCond now cd q = true
            ∧ dq = (now - q.start_timestamp).natAbs)
       ∧ (∀ q dq q0 d0, l.foldl (activeStep now cd) acc = some (q, dq) →
            acc = some (q0, d0) → dq ≤ d0)
       ∧ (∀ p ∈ l, activeCond now cd p = true →
            ∀ q dq, l.foldl (activeStep now cd) acc = some (q, dq) →
              dq ≤ (now - p.start_timestamp).natAbs)
       ∧ (∀ q dq, l.foldl (activeStep now cd) acc = some (q, dq) →
            q ∈ l ∨ ∃ d0, acc = some (q, d0))
       ∧ (l.foldl (activeStep now cd) acc = none →
            acc = none ∧ ∀ p ∈ l, activeCond now cd p = false))
  | [], acc, hacc => by
      simp only [List.foldl_nil]
      refine ⟨hacc, ?_, ?_, ?_, ?_⟩
      · intro q dq q0 d0 h1 h2
        have h3 := h1.symm.trans h2
        simp only [Option.some.injEq, Prod.mk.injEq] at h3
        omega
      · intro p hp
        exact absurd hp (List.not_mem_nil p)
      · intro q dq h1
        exact Or.inr ⟨dq, h1⟩
      · intro h
        exact ⟨h, by simp⟩
  | p :: l, acc, hacc => by
      rw [List.foldl_cons]
      have hacc' : ∀ q0 d0, activeStep now cd acc p = some (q0, d0) →
          activeCond now cd q0 = true
            ∧ d0 = (now - q0.start_timestamp).natAbs :=
        fun q0 d0 h => activeStep_inv hacc h
      obtain ⟨ih1, ih2, ih3, ih4, ih5⟩ :=
        activeFold_spec now cd l (activeStep now cd acc p) hacc'
      refine ⟨ih1, ?_, ?_, ?_, ?_⟩
      · intro q dq q0 d0 h1 h2
        obtain ⟨q1, d1, hs⟩ := @activeStep_some_of_some now cd acc p q0 d0 h2
        exact le_trans (ih2 q dq q1 d1 h1 hs) (activeStep_le hs h2)
      · intro p' hp' hc q dq h1
        rcases List.mem_cons.mp hp' with rfl | hmem
        · obtain ⟨q1, d1, hs, hd1⟩ := @activeStep_of_cond now cd acc p' hc
          exact le_trans (ih2 q dq q1 d1 h1 hs) hd1
        · exact ih3 p' hmem hc q dq h1
      · intro q dq h1
        rcases ih4 q dq h1 with hmem | ⟨d1, hs⟩
        · exact Or.inl (List.mem_cons_of_mem p hmem)
        · rcases activeStep_origin hs with rfl | ha
          · exact Or.inl (List.mem_cons_self q l)
          · exact Or.inr ⟨d1, ha⟩
      · intro h1
        obtain ⟨hs, hrest⟩ := ih5 h1
        obtain ⟨ha, hp⟩ := activeStep_eq_none hs
        refine ⟨ha, ?_⟩
        intro p' hp'
        rcases List.mem_cons.mp hp' with rfl | hmem
        · exact hp
        · exact hrest p' hmem

/-! ### Claim theorems -/

/-- C3: a programme element that lacks a `start` attribute is skipped by
the programme loop, so after parsing no channel's programme index contains
a record derived from it. -/
theorem missing_start_programme_dropped (tz : Int) (chans : List Channel)
    (epg : EpgData) (pe : ProgrammeElem) (h : pe.start = none) :
    processProgramme tz chans epg pe = epg := by
  unfold processProgramme
  rcases hc : pe.channel with _ | cid <;> rw [h] <;> rfl

/-- Witness for C3 at a concrete start-less programme element. -/
theorem missing_start_programme_dropped_witness :
    exNoStartElem.start = none
      ∧ processProgramme 0 [] [] exNoStartElem = [] :=
  ⟨rfl, missing_start_programme_dropped 0 [] [] exNoStartElem rfl⟩

/-- C2 (counterexample): a programme whose start time parses but whose
stop attribute is present and unparseable is dropped entirely — the
channel's index stays empty — rather than being stored with stop absent
as the claim states. -/
theorem stop_parse_failure_keeps_programme_cex :
    (strptime14 (takeBeforeSpace (pystr ("20240101200000")))).isSome = true
  ∧ exBadStopElem.stop = some (pystr ("garbage"))
  ∧ strptime14 (takeBeforeSpace (pystr ("garbage"))) = none
  ∧ (parseXMLData 0 [exChannelElem] [exBadStopElem]).2
      = [(pystr ("Das Erste"), [])] := by
  exact ⟨by decide, rfl, by decide, by decide⟩

/-- C2 (amended): a stop-time parse failure — the stop attribute present,
non-empty and unparseable — raises inside the same `try` block as the
start parse, so the programme is dropped exactly like a start failure;
stop is left absent only when the stop attribute is missing or empty. -/
theorem stop_parse_failure_drops_programme (tz : Int) (chans : List Channel)
    (epg : EpgData) (pe : ProgrammeElem) (sp : PyStr)
    (h1 : pe.stop = some sp) (h2 : sp ≠ [])
    (h3 : strptime14 (takeBeforeSpace sp) = none) :
    mkProgram tz pe = none ∧ processProgramme tz chans epg pe = epg := by
  have hmk : mkProgram tz pe = none := by
    rcases hs : pe.start with _ | st
    · simp [mkProgram, hs]
    · rcases ht : pe.title with _ | t
      · simp [mkProgram, hs, ht]
      · rcases hp : strptime14 (takeBeforeSpace st) with _ | c
        · simp [mkProgram, hs, ht, hp]
        · simp [mkProgram, hs, ht, hp, h1, h2, h3]
  refine ⟨hmk, ?_⟩
  rcases hc : pe.channel with _ | cid
  · simp [processProgramme, hc]
  · rcases hs : pe.start with _ | st
    · simp [processProgramme, hc, hs]
    · rcases ht : pe.title with _ | t
      · simp [processProgramme, hc, hs, ht]
      · by_cases hg1 : cid = []
        · simp [processProgramme, hc, hs, ht, hg1]
        · by_cases hg2 : st = []
          · simp [processProgramme, hc, hs, ht, hg2]
          · simp only [processProgramme, hc, hs, ht]
            rw [if_neg (by simp [hg1, hg2])]
            rcases hf : findChannel chans cid with _ | ch
            · rfl
            · rw [hmk]

/-- Witness for C2's amended theorem at the concrete bad-stop element. -/
theorem stop_parse_failure_drops_programme_witness :
    mkProgram 0 exBadStopElem = none
      ∧ processProgramme 0 [] [] exBadStopElem = [] :=
  stop_parse_failure_drops_programme 0 [] [] exBadStopElem
    (pystr ("garbage")) rfl (by decide) (by decide)

/-- C6 (counterexample): a programme element with no `desc` child parses
to a record whose description is the fixed fallback `"Nema opisa"`, and
its rendered entry still carries the description line — the fallback is a
non-empty string and the renderer tests emptiness, not defaultness. -/
theorem default_desc_gets_line_cex :
    (parseXMLData 0 [exChannelElem] [exProgrammeElem]).2
        = [(pystr ("Das Erste"), [exProgram])]
  ∧ exProgrammeElem.desc = none
  ∧ exProgram.desc = pystr ("Nema opisa")
  ∧ renderEntry 0 exProgram
      = entryBase 0 exProgram ++ pystr ("\n  ") ++ pystr ("Nema opisa") := by
  exact ⟨by decide, rfl, rfl, by decide⟩

/-- C6 (amended): an entry line carries the formatted time, title and
category; the description second line is appended exactly when the stored
description is non-empty; a missing `desc` element defaults to the
non-empty fallback `"Nema opisa"`, so defaulted programmes do get a
description line. -/
theorem desc_line_iff_nonempty_desc (tz : Int) (pe : ProgrammeElem)
    (pd : Program) (h1 : pe.desc = none) (h2 : mkProgram tz pe = some pd) :
    pd.desc = pystr ("Nema opisa")
  ∧ renderEntry tz pd = entryBase tz pd ++ pystr ("\n  ") ++ pd.desc
  ∧ ∀ q : Program, q.desc = [] → renderEntry tz q = entryBase tz q := by
  have hdesc : pd.desc = pystr ("Nema opisa") := by
    rcases hs : pe.start with _ | st
    · simp [mkProgram, hs] at h2
    · rcases ht : pe.title with _ | t
      · simp [mkProgram, hs, ht] at h2
      · rcases hp : strptime14 (takeBeforeSpace st) with _ | c
        · simp [mkProgram, hs, ht, hp] at h2
        · rcases hstop : pe.stop with _ | sp
          · simp only [mkProgram, hs, ht, hp, hstop,
              Option.some.injEq] at h2
            rw [← h2]
            simp [h1]
          · by_cases hsp : sp = []
            · simp only [mkProgram, hs, ht, hp, hstop, hsp, if_true,
                if_pos, Option.some.injEq] at h2
              rw [← h2]
              simp [h1]
            · rcases hps : strptime14 (takeBeforeSpace sp) with _ | c2
              · simp [mkProgram, hs, ht, hp, hstop, hsp, hps] at h2
              · simp only [mkProgram, hs, ht, hp, hstop, hps,
                  Option.some.injEq] at h2
                rw [if_neg hsp] at h2
                simp only [Option.some.injEq] at h2
                rw [← h2]
                simp [h1]
  refine ⟨hdesc, ?_, ?_⟩
  · unfold renderEntry
    rw [if_neg (by rw [hdesc]; decide)]
  · intro q hq
    unfold renderEntry
    rw [if_pos hq]

/-- Witness for C6's amended theorem at the concrete desc-less element. -/
theorem desc_line_iff_nonempty_desc_witness :
    exProgram.desc = pystr ("Nema opisa")
  ∧ renderEntry 0 exProgram
      = entryBase 0 exProgram ++ pystr ("\n  ") ++ exProgram.desc :=
  ⟨(desc_line_iff_nonempty_desc 0 exProgrammeElem exProgram rfl
      (by decide)).1,
   (desc_line_iff_nonempty_desc 0 exProgrammeElem exProgram rfl
      (by decide)).2.1⟩

/-- C8: a fetch that goes to the network writes the fetched text to the
cache stamped with the current time, and any fetch within `CACHE_TIME` of
that stamp returns the byte-identical cached text, makes no network
request, and leaves the world unchanged (so the round trip repeats). -/
theorem cache_roundtrip_within_24h (w : FetchWorld) (now1 now2 : Int)
    (h1 : (downloadAndParseData now1 w).usedNetwork = true)
    (h2 : now2 - now1 < CACHE_TIME) :
    (downloadAndParseData now1 w).world.cache
        = some ((downloadAndParseData now1 w).xml, now1)
  ∧ downloadAndParseData now2 (downloadAndParseData now1 w).world
      = ⟨(downloadAndParseData now1 w).xml, false,
         (downloadAndParseData now1 w).world⟩ := by
  have hfresh : downloadAndParseData now1 w
      = ⟨w.remote, true, ⟨some (w.remote, now1), w.remote⟩⟩ := by
    rcases hca : w.cache with _ | td
    · simp [downloadAndParseData, hca]
    · obtain ⟨txt, mtime⟩ := td
      by_cases hfr : now1 - mtime < CACHE_TIME
      · exfalso
        have hnet : (downloadAndParseData now1 w).usedNetwork = false := by
          simp [downloadAndParseData, hca, hfr]
        rw [h1] at hnet
        exact absurd hnet (by decide)
      · simp [downloadAndParseData, hca, hfr]
  rw [hfresh]
  refine ⟨rfl, ?_⟩
  simp [downloadAndParseData, h2]

/-- Witness for C8 starting from an empty cache. -/
theorem cache_roundtrip_within_24h_witness :
    (downloadAndParseData 1000 ⟨none, pystr ("xml")⟩).usedNetwork = true
  ∧ downloadAndParseData 2000 (downloadAndParseData 1000
        ⟨none, pystr ("xml")⟩).world
      = ⟨(downloadAndParseData 1000 ⟨none, pystr ("xml")⟩).xml, false,
         (downloadAndParseData 1000 ⟨none, pystr ("xml")⟩).world⟩ :=
  ⟨by decide,
   (cache_roundtrip_within_24h ⟨none, pystr ("xml")⟩ 1000 2000 (by decide)
      (by decide)).2⟩

/-- C9: for every channel (programmes or none) and every time, the
display-line builder returns a non-empty list, and the resolver's cursor
offset is a valid zero-based index into that list — it is 0 by default and
is only ever set to the index of an existing line. -/
theorem cursor_offset_in_bounds (tz : Int) (epg : EpgData) (name : PyStr)
    (now : Int) :
    getEPGFromData tz epg name ≠ []
  ∧ resolveCursor tz epg name now < (getEPGFromData tz epg name).length := by
  refine ⟨getEPGFromData_ne_nil tz epg name, ?_⟩
  have hpos : 0 < (getEPGFromData tz epg name).length :=
    List.length_pos.mpr (getEPGFromData_ne_nil tz epg name)
  simp only [resolveCursor]
  rcases h1 : activeLineIdx tz epg name now with _ | i
  · rcases h2 : minByStart (futureOf (currentDate tz now) (progsOf epg name))
        with _ | ff
    · rcases h3 : lastValidIdx (getEPGFromData tz epg name) with _ | i
      · simpa using hpos
      · have hb := lastValidIdx_some_lt _ _ h3
        simpa using hb
    · show (List.findIdx? (matchLine tz ff) (getEPGFromData tz epg name)).getD 0
          < (getEPGFromData tz epg name).length
      rcases h3 : (getEPGFromData tz epg name).findIdx? (matchLine tz ff)
          with _ | i
      · simpa using hpos
      · have hb := findIdx?_some_lt (matchLine tz ff)
          (getEPGFromData tz epg name) 0 i h3
        simpa using hb
  · unfold activeLineIdx at h1
    rcases h4 : pickActive now (currentDate tz now) (progsOf epg name)
        with _ | cp
    · rw [h4] at h1
      exact absurd h1 (by simp)
    · rw [h4] at h1
      have hb := findIdx?_some_lt (matchLine tz cp)
        (getEPGFromData tz epg name) 0 i h1
      simpa using hb

/-- C4: for a channel with at least one programme, the display lines are
emitted as date blocks with the block dates in ascending order; within a
block the programmes (whose renderings are the block's entry lines) have
non-decreasing start timestamps and all carry the block's date. -/
theorem display_lines_date_blocks_ordered (tz : Int) (epg : EpgData)
    (name : PyStr) (h : progsOf epg name ≠ []) :
    getEPGFromData tz epg name = emitBlocks tz (bucketsOf (progsOf epg name))
  ∧ List.Sorted (· ≤ ·)
      (((bucketsOf (progsOf epg name)).map Prod.fst).insertionSort (· ≤ ·))
  ∧ (∀ k : Int,
      ((lookupBucket (bucketsOf (progsOf epg name)) k).getD []).Pairwise
        (fun a b => a.start_timestamp ≤ b.start_timestamp))
  ∧ (∀ k : Int, ∀ p ∈ (lookupBucket (bucketsOf (progsOf epg name)) k).getD [],
      p.start_date = k) := by
  refine ⟨?_, ?_, ?_, ?_⟩
  · have hne := emitBlocks_ne_nil tz (bucketsOf_ne_nil h)
    have h' : (lookupEpg epg name).getD [] ≠ [] := h
    have hne' :
        emitBlocks tz (bucketsOf ((lookupEpg epg name).getD [])) ≠ [] := hne
    simp only [getEPGFromData]
    rw [if_neg h', if_neg hne']
    rfl
  · exact List.sorted_insertionSort _ _
  · intro k
    rw [lookupBucket_bucketsOf]
    exact List.Pairwise.sublist (List.filter_sublist _) (sortByStart_pairwise _)
  · intro k p hp
    rw [lookupBucket_bucketsOf] at hp
    exact of_decide_eq_true (List.mem_filter.mp hp).2

/-- Witness for C4 at a concrete one-programme channel. -/
theorem display_lines_date_blocks_ordered_witness :
    progsOf (parseXMLData 0 [exChannelElem] [exProgrammeElem]).2
        (pystr ("Das Erste")) ≠ []
  ∧ getEPGFromData 0 (parseXMLData 0 [exChannelElem] [exProgrammeElem]).2
        (pystr ("Das Erste"))
      = emitBlocks 0 (bucketsOf (progsOf
          (parseXMLData 0 [exChannelElem] [exProgrammeElem]).2
          (pystr ("Das Erste")))) :=
  ⟨by decide,
   (display_lines_date_blocks_ordered 0
      (parseXMLData 0 [exChannelElem] [exProgrammeElem]).2
      (pystr ("Das Erste")) (by decide)).1⟩

/-- C5: every parsed channel's alias consists solely of lowercase
alphanumerics and dots, and it equals the channel's display title with
every other character removed and the rest lowercased. -/
theorem channel_alias_clean (ce : ChannelElem) (ch : Channel)
    (h : parseChannelElem ce = some ch) :
    (∀ c ∈ ch.alias', isLowerAlnumDot c = true)
  ∧ ch.alias' = specAlias ch.title := by
  have halias : ch.alias' = clean_channel_name ch.title := by
    rcases hid : ce.id with _ | cid
    · simp [parseChannelElem, hid] at h
    · rcases hdn : ce.displayName with _ | dn
      · simp [parseChannelElem, hid, hdn] at h
      · by_cases hnil : cid = []
        · simp [parseChannelElem, hid, hdn, hnil] at h
        · simp only [parseChannelElem, hid, hdn, if_neg hnil,
            Option.some.injEq] at h
          rw [← h]
  rw [halias, clean_channel_name_eq]
  refine ⟨?_, rfl⟩
  intro c hc
  simp only [specAlias] at hc
  rcases List.mem_map.mp hc with ⟨a, ha, rfl⟩
  exact (alnumDot_lower_props (List.mem_filter.mp ha).2).1

/-- Witness for C5 at a concrete messy display name. -/
theorem channel_alias_clean_witness :
    parseChannelElem exMessyChannelElem = some exMessyChannel
  ∧ exMessyChannel.alias' = specAlias exMessyChannel.title :=
  ⟨by decide,
   (channel_alias_clean exMessyChannelElem exMessyChannel (by decide)).2⟩

/-- C1: for positive wall-clock `now`, the active-match filter holds of
exactly the programmes whose start date is today, whose stop timestamp is
present and whose interval `[start, stop]` contains `now`; the picked
programme is a qualifying one of minimal `|now - start|` (and one is
picked whenever one qualifies); and a rendered line is accepted for the
picked programme only if its parsed title equals the programme's title and
the timestamp reconstructed from its formatted time is within 60 seconds
of the stored start timestamp. -/
theorem active_match_resolver (tz now cd : Int) (progs : List Program)
    (hnow : 0 < now) :
    (∀ p : Program, activeCond now cd p = true ↔
       (p.start_date = cd ∧ ∃ s, p.stop_timestamp = some s ∧
         p.start_timestamp ≤ now ∧ now ≤ s))
  ∧ (∀ cp, pickActive now cd progs = some cp →
       activeCond now cd cp = true ∧
         ∀ p ∈ progs, activeCond now cd p = true →
           (now - cp.start_timestamp).natAbs
             ≤ (now - p.start_timestamp).natAbs)
  ∧ ((∃ p ∈ progs, activeCond now cd p = true) →
       ∃ cp, pickActive now cd progs = some cp)
  ∧ (∀ cp line, matchLine tz cp line = true →
       lineTitle line = cp.title ∧
         ∃ lt, reconstructTs tz cp (lineTimeStr line) = some lt ∧
           (lt - cp.start_timestamp).natAbs ≤ 60) := by
  have hbase : ∀ q0 d0, (none : Option (Program × Nat)) = some (q0, d0) →
      activeCond now cd q0 = true
        ∧ d0 = (now - q0.start_timestamp).natAbs :=
    fun q0 d0 h0 => absurd h0 (by simp)
  obtain ⟨s1, s2, s3, s4, s5⟩ :=
    activeFold_spec now cd (sortByStart progs) none hbase
  refine ⟨?_, ?_, ?_, ?_⟩
  · intro p
    constructor
    · intro hc
      rcases hstop : p.stop_timestamp with _ | s
      · rw [activeCond] at hc
        rw [hstop] at hc
        exact absurd hc (by simp)
      · rw [activeCond] at hc
        rw [hstop] at hc
        simp only [Bool.and_eq_true, decide_eq_true_eq] at hc
        exact ⟨hc.1.1.2, s, rfl, hc.1.2, hc.2⟩
    · rintro ⟨hdate, s, hstop, hle1, hle2⟩
      have hs : s ≠ 0 := by omega
      rw [activeCond]
      rw [hstop]
      simp [hs, hdate, hle1, hle2]
  · intro cp hcp
    unfold pickActive at hcp
    rcases hr : (sortByStart progs).foldl (activeStep now cd) none
        with _ | qd
    · rw [hr] at hcp
      exact absurd hcp (by simp)
    · obtain ⟨q, dq⟩ := qd
      rw [hr] at hcp
      simp only [Option.map_some'] at hcp
      have hq : q = cp := by
        simpa using congrArg (fun o => o.getD cp) hcp
      subst hq
      obtain ⟨hcond, hdq⟩ := s1 q dq hr
      refine ⟨hcond, ?_⟩
      intro p hp hcondp
      have hmin := s3 p (mem_sortByStart.mpr hp) hcondp q dq hr
      omega
  · rintro ⟨p, hp, hcond⟩
    rcases hpick : pickActive now cd progs with _ | cp
    · exfalso
      unfold pickActive at hpick
      rcases hr : (sortByStart progs).foldl (activeStep now cd) none
          with _ | qd
      · obtain ⟨_, hall⟩ := s5 hr
        rw [hall p (mem_sortByStart.mpr hp)] at hcond
        exact absurd hcond (by simp)
      · rw [hr] at hpick
        exact absurd hpick (by simp)
    · exact ⟨cp, rfl⟩
  · intro cp line hm
    unfold matchLine at hm
    by_cases hskip : lineSkip line = true
    · rw [if_pos hskip] at hm
      exact absurd hm (by simp)
    · rw [if_neg hskip] at hm
      by_cases htl : lineTitle line = cp.title
      · rw [if_pos htl] at hm
        rcases hrec : reconstructTs tz cp (lineTimeStr line) with _ | lt
        · rw [hrec] at hm
          exact absurd hm (by simp)
        · rw [hrec] at hm
          refine ⟨htl, lt, rfl, ?_⟩
          have hlt : (lt - cp.start_timestamp).natAbs < 60 := by
            simpa using hm
          omega
      · rw [if_neg htl] at hm
        exact absurd hm (by simp)

/-- Witness for C1 at the concrete active programme. -/
theorem active_match_resolver_witness :
    (0 : Int) < exNowActive
  ∧ pickActive exNowActive 20240101 [exProgram] = some exProgram
  ∧ activeCond exNowActive 20240101 exProgram = true :=
  ⟨by decide, by decide,
   ((active_match_resolver 0 exNowActive 20240101 [exProgram]
      (by decide)).2.1 exProgram (by decide)).1⟩

/-- C7 (counterexample): with one future-dated programme whose title
contains `" - "`, neither the active-match step nor the next-upcoming step
yields a matched line, the last valid (non-separator, non-informational)
line has index 1, yet the resolver returns the default 0 instead of that
last valid line. -/
theorem fallback_skipped_on_failed_future_match_cex :
    activeLineIdx 0 exDashEpg (pystr ("Das Erste")) exNowBefore = none
  ∧ minByStart (futureOf (currentDate 0 exNowBefore)
      (progsOf exDashEpg (pystr ("Das Erste")))) = some exDashProgram
  ∧ (getEPGFromData 0 exDashEpg (pystr ("Das Erste"))).findIdx?
      (matchLine 0 exDashProgram) = none
  ∧ lastValidIdx (getEPGFromData 0 exDashEpg (pystr ("Das Erste"))) = some 1
  ∧ resolveCursor 0 exDashEpg (pystr ("Das Erste")) exNowBefore = 0 := by
  exact ⟨by decide, by decide, by decide, by decide, by decide⟩

/-- C7 (amended): the last-valid-line fallback is taken only when no
programme has a today-or-later start date (in which case no active match
exists either); when future candidates exist but no rendered line passes
the time-plus-title match, the cursor offset stays at the default 0. -/
theorem fallback_only_without_future (tz : Int) (epg : EpgData)
    (name : PyStr) (now : Int) :
    (futureOf (currentDate tz now) (progsOf epg name) = [] →
       resolveCursor tz epg name now
         = (lastValidIdx (getEPGFromData tz epg name)).getD 0)
  ∧ (∀ ff : Program, activeLineIdx tz epg name now = none →
       minByStart (futureOf (currentDate tz now) (progsOf epg name))
         = some ff →
       (getEPGFromData tz epg name).findIdx? (matchLine tz ff) = none →
       resolveCursor tz epg name now = 0) := by
  constructor
  · intro hfut
    have hpick : pickActive now (currentDate tz now) (progsOf epg name)
        = none := by
      rcases hp : pickActive now (currentDate tz now) (progsOf epg name)
          with _ | cp
      · rfl
      · exfalso
        unfold pickActive at hp
        rcases hr : (sortByStart (progsOf epg name)).foldl
            (activeStep now (currentDate tz now)) none with _ | qd
        · rw [hr] at hp
          exact absurd hp (by simp)
        · obtain ⟨q, dq⟩ := qd
          rw [hr] at hp
          obtain ⟨s1, _, _, s4, _⟩ :=
            activeFold_spec now (currentDate tz now)
              (sortByStart (progsOf epg name)) none
              (fun q0 d0 h0 => absurd h0 (by simp))
          have hcond := (s1 q dq hr).1
          have hmem : q ∈ progsOf epg name := by
            rcases s4 q dq hr with hmem | ⟨d0, h0⟩
            · exact mem_sortByStart.mp hmem
            · exact absurd h0 (by simp)
          have hdate : q.start_date = currentDate tz now := by
            rw [activeCond] at hcond
            rcases hstop : q.stop_timestamp with _ | s
            · rw [hstop] at hcond
              exact absurd hcond (by simp)
            · rw [hstop] at hcond
              simp only [Bool.and_eq_true, decide_eq_true_eq] at hcond
              exact hcond.1.1.2
          have : q ∈ futureOf (currentDate tz now) (progsOf epg name) :=
            List.mem_filter.mpr ⟨hmem, by rw [hdate]; simp⟩
          rw [hfut] at this
          exact absurd this (List.not_mem_nil q)
    have hal : activeLineIdx tz epg name now = none := by
      unfold activeLineIdx
      rw [hpick]
    simp only [resolveCursor, hal, hfut, minByStart]
  · intro ff hal hmin hfind
    simp only [resolveCursor, hal, hmin]
    rw [hfind]
    rfl

/-- Witness for C7's amended theorem on an empty channel. -/
theorem fallback_only_without_future_witness :
    futureOf (currentDate 0 1000000) (progsOf [] (pystr ("X"))) = []
  ∧ resolveCursor 0 [] (pystr ("X")) 1000000
      = (lastValidIdx (getEPGFromData 0 [] (pystr ("X")))).getD 0 :=
  ⟨by decide,
   (fallback_only_without_future 0 [] (pystr ("X")) 1000000).1 (by decide)⟩

/-- A parsed channel record always has a non-empty (truthy) id. -/
theorem parsed_channel_id_ne_nil {ce : ChannelElem} {ch : Channel}
    (h : parseChannelElem ce = some ch) : ch.id ≠ [] := by
  rcases hid : ce.id with _ | cid
  · simp [parseChannelElem, hid] at h
  · rcases hdn : ce.displayName with _ | dn
    · simp [parseChannelElem, hid, hdn] at h
    · by_cases hnil : cid = []
      · simp [parseChannelElem, hid, hdn, hnil] at h
      · simp only [parseChannelElem, hid, hdn, if_neg hnil,
          Option.some.injEq] at h
        rw [← h]
        exact hnil

/-- In a duplicate-free list, a present element is matched by exactly one
position. -/
theorem length_filter_eq_one_of_nodup {α : Type} [DecidableEq α] :
    ∀ {l : List α} {k : α}, l.Nodup → k ∈ l →
      (l.filter (fun a => a = k)).length = 1
  | [], k, _, hm => absurd hm (List.not_mem_nil k)
  | a :: l, k, hnd, hm => by
      obtain ⟨hna, hndl⟩ := List.nodup_cons.mp hnd
      rcases List.mem_cons.mp hm with rfl | hml
      · rw [List.filter_cons, if_pos (by simp)]
        have hnil : l.filter (fun x => decide (x = k)) = [] := by
          rw [List.filter_eq_nil_iff]
          intro x hx
          simp only [decide_eq_true_eq]
          intro hxk
          exact hna (hxk ▸ hx)
        simp [hnil]
      · have hak : ¬a = k := fun he => hna (he ▸ hml)
        rw [List.filter_cons, if_neg (by simp [hak])]
        exact length_filter_eq_one_of_nodup hndl hml

/-- C10: when two parsed channels have distinct ids but the same display
title (each being the channel its id resolves to), the programme index of
a parse pass holds exactly one entry under that title, and the programme
loop appends every programme referencing either id into that one shared
entry. -/
theorem same_title_channels_share_entry (tz : Int)
    (chanElems : List ChannelElem) (progElems : List ProgrammeElem)
    (ca cb : Channel)
    (h1 : ca ∈ (parseXMLData tz chanElems progElems).1)
    (h2 : cb ∈ (parseXMLData tz chanElems progElems).1)
    (hid : ca.id ≠ cb.id) (ht : ca.title = cb.title)
    (hfa : findChannel (parseXMLData tz chanElems progElems).1 ca.id
        = some ca)
    (hfb : findChannel (parseXMLData tz chanElems progElems).1 cb.id
        = some cb) :
    countKey (parseXMLData tz chanElems progElems).2 ca.title = 1
  ∧ ∀ (epg : EpgData) (pe : ProgrammeElem) (pd : Program) (cid : PyStr),
      pe.channel = some cid → (cid = ca.id ∨ cid = cb.id) →
      mkProgram tz pe = some pd →
      processProgramme tz (parseXMLData tz chanElems progElems).1 epg pe
        = appendAt epg ca.title pd := by
  have h1' : ca ∈ parseChannels chanElems := h1
  have h2' : cb ∈ parseChannels chanElems := h2
  constructor
  · have hkeys : keysOf (parseXMLData tz chanElems progElems).2
        = keysOf (initEpg chanElems) :=
      keysOf_progFold tz (parseChannels chanElems) progElems
        (initEpg chanElems)
    obtain ⟨hnodup, _, hmem⟩ :=
      initEpg_fold_spec (parseChannels chanElems) [] (by simp [keysOf])
    have hca : ca.title ∈ keysOf (initEpg chanElems) := hmem ca h1'
    unfold countKey
    rw [hkeys]
    exact length_filter_eq_one_of_nodup hnodup hca
  · intro epg pe pd cid hch hcid hmk
    obtain ⟨st, hs⟩ : ∃ st, pe.start = some st := by
      rcases hs : pe.start with _ | st
      · simp [mkProgram, hs] at hmk
      · exact ⟨st, rfl⟩
    obtain ⟨t, htt⟩ : ∃ t, pe.title = some t := by
      rcases htt : pe.title with _ | t
      · simp [mkProgram, hs, htt] at hmk
      · exact ⟨t, rfl⟩
    have hst_ne : st ≠ [] := by
      intro he
      rw [he] at hs
      simp [mkProgram, hs, htt, strptime14, takeBeforeSpace] at hmk
    have hcid_ne : cid ≠ [] := by
      rcases hcid with rfl | rfl
      · obtain ⟨ce, _, hce⟩ := List.mem_filterMap.mp h1'
        exact parsed_channel_id_ne_nil hce
      · obtain ⟨ce, _, hce⟩ := List.mem_filterMap.mp h2'
        exact parsed_channel_id_ne_nil hce
    simp only [processProgramme, hch, hs, htt]
    rw [if_neg (by simp [hcid_ne, hst_ne])]
    rcases hcid with rfl | rfl
    · rw [hfa, hmk]
    · rw [hfb, hmk, ht]

/-- Witness for C10 at two concrete same-titled channels. -/
theorem same_title_channels_share_entry_witness :
    parseChannels [exSameTitleA, exSameTitleB]
        = [exSameChanA, exSameChanB]
  ∧ countKey (parseXMLData 0 [exSameTitleA, exSameTitleB] []).2
      (pystr ("Same")) = 1 :=
  ⟨by decide,
   (same_title_channels_share_entry 0 [exSameTitleA, exSameTitleB] []
      exSameChanA exSameChanB (by decide) (by decide) (by decide)
      (by decide) (by decide) (by decide)).1⟩
